import Mathlib

/-!
Verification of the resource-ownership and memory-mapping layer of the
applevisor crate (Rust bindings for the Apple Silicon Hypervisor framework).

The definitions below are a shallow embedding of the code in
`src/src/vm.rs`, `src/src/memory.rs`, `src/src/vcpu.rs` and
`src/src/error.rs`.  Machine integers (`u64`, `usize`) are embedded as
`Nat` together with explicit `< 2 ^ 64` overflow checks mirroring the
`checked_add` calls of the source.  The native Hypervisor.framework
backend is external to the crate; the few backend behaviours the crate
relies on (documented success and failure codes) are modelled explicitly
and marked as such.
-/

namespace Applevisor

/-- Overflow bound of the 64-bit unsigned integers (`u64` and `usize`)
used for guest addresses and sizes in the source. -/
def u64Bound : Nat := 2 ^ 64

/-- Largest value of Rust `isize`, the bound checked by
`std::alloc::Layout::from_size_align`. -/
def isizeMax : Nat := 2 ^ 63 - 1

/-- The size of a memory page on Apple Silicon
(`pub const PAGE_SIZE: usize = 0x4000;` in `applevisor-sys`). -/
def PAGE_SIZE : Nat := 0x4000

/-- The error type of the crate, from `src/src/error.rs`
(`HypervisorError`).  `LayoutError` exists only when the `macos-12-1`
feature is disabled; it is included here because both allocation paths
are modelled. -/
inductive HypervisorError where
  | BadArgument
  | Busy
  | Denied
  | Error
  | Fault
  | IllegalState
  | NoDevice
  | NoResources
  | Unknown (code : Int)
  | Unsupported
  | LayoutError
deriving DecidableEq

/-- `u64::checked_add` / `usize::checked_add`: `none` exactly when the
mathematical sum does not fit in 64 bits. -/
def checkedAddU64 (a b : Nat) : Option Nat :=
  if a + b < u64Bound then some (a + b) else none

/-- The access permissions of a memory range (`MemPerms` in
`src/src/memory.rs`).  The permission value is forwarded to the backend
and never stored in the `Memory` object, so it carries no behaviour in
this model. -/
inductive MemPerms where
  | None
  | Read
  | Write
  | Exec
  | ReadWrite
  | ReadExec
  | WriteExec
  | ReadWriteExec
deriving DecidableEq

/-- A memory mapping object (`Memory` in `src/src/memory.rs`).  The host
allocation is embedded as its byte contents `data` plus its recorded
size `size` (`host_alloc.size`); `guest_addr` is the recorded guest
binding, `none` when unmapped. -/
structure Memory where
  size : Nat
  data : List Nat
  guest_addr : Option Nat
deriving DecidableEq

/-- Result of a backend call (`hv_unsafe_call!` wraps the raw status
into `Result<()>`).  Backend map/unmap/protect outcomes enter the model
as explicit parameters of this type. -/
abbrev BackendResult := Except HypervisorError Unit

/-- `Memory::map`: fails with `Busy` when already mapped; otherwise
issues the backend `hv_vm_map` call (result `bk`), and only on its
success records the guest address. -/
def Memory.map (m : Memory) (bk : BackendResult) (g : Nat)
    (perms : MemPerms) : BackendResult × Memory :=
  if m.guest_addr.isSome then (.error .Busy, m)
  else
    match bk with
    | .error e => (.error e, m)
    | .ok _ => (.ok (), { m with guest_addr := some g })

/-- `Memory::unmap`: `self.guest_addr.take().ok_or(HypervisorError::Error)?`
clears the recorded guest address before the backend `hv_vm_unmap` call
(result `bk`), so on a backend failure the error is returned while the
object already records unmapped. -/
def Memory.unmap (m : Memory) (bk : BackendResult) : BackendResult × Memory :=
  match m.guest_addr with
  | none => (.error .Error, m)
  | some _ =>
    match bk with
    | .error e => (.error e, { m with guest_addr := none })
    | .ok _ => (.ok (), { m with guest_addr := none })

/-- `Memory::protect`: fails with `Error` when unmapped; otherwise a
backend pass-through that does not modify the object. -/
def Memory.protect (m : Memory) (bk : BackendResult)
    (perms : MemPerms) : BackendResult × Memory :=
  match m.guest_addr with
  | none => (.error .Error, m)
  | some _ =>
    match bk with
    | .error e => (.error e, m)
    | .ok _ => (.ok (), m)

/-- `Memory::read`: validates that `[g, g + len)` lies inside the mapped
range using `checked_add`, then copies `len` bytes from the host buffer
at offset `g - A`.  The caller buffer of length `len` is returned as the
list of bytes read. -/
def Memory.read (m : Memory) (g : Nat) (len : Nat) :
    Except HypervisorError (List Nat) :=
  match m.guest_addr with
  | none => .error .Error
  | some A =>
    if g < A then .error .BadArgument
    else
      match checkedAddU64 g len with
      | none => .error .BadArgument
      | some endAccess =>
        match checkedAddU64 A m.size with
        | none => .error .BadArgument
        | some endMapping =>
          if endAccess > endMapping then .error .BadArgument
          else .ok ((m.data.drop (g - A)).take len)

/-- Splice `bytes` into `data` at offset `off`, the effect of the
`ptr::copy` in `Memory::write` on the host buffer. -/
def listSplice (data : List Nat) (off : Nat) (bytes : List Nat) : List Nat :=
  data.take off ++ bytes ++ data.drop (off + bytes.length)

/-- `Memory::write`: the same range validation as `Memory::read`, then
copies the input bytes into the host buffer at offset `g - A`. -/
def Memory.write (m : Memory) (g : Nat) (bytes : List Nat) :
    BackendResult × Memory :=
  match m.guest_addr with
  | none => (.error .Error, m)
  | some A =>
    if g < A then (.error .BadArgument, m)
    else
      match checkedAddU64 g bytes.length with
      | none => (.error .BadArgument, m)
      | some endAccess =>
        match checkedAddU64 A m.size with
        | none => (.error .BadArgument, m)
        | some endMapping =>
          if endAccess > endMapping then (.error .BadArgument, m)
          else (.ok (), { m with data := listSplice m.data (g - A) bytes })

/-- Little-endian byte encoding of width `n`:
`uN::to_le_bytes` for `n` of 1, 2, 4 and 8. -/
def toLeBytes : Nat → Nat → List Nat
  | 0, _ => []
  | n + 1, v => v % 256 :: toLeBytes n (v / 256)

/-- Little-endian byte decoding: `uN::from_le_bytes`. -/
def fromLeBytes : List Nat → Nat
  | [] => 0
  | b :: bs => b + 256 * fromLeBytes bs

/-- `Memory::read_u8`: reads one byte through `Memory::read`. -/
def Memory.read_u8 (m : Memory) (g : Nat) : Except HypervisorError Nat :=
  (m.read g 1).map fromLeBytes

/-- `Memory::read_u16`: reads two bytes and decodes little-endian. -/
def Memory.read_u16 (m : Memory) (g : Nat) : Except HypervisorError Nat :=
  (m.read g 2).map fromLeBytes

/-- `Memory::read_u32`: reads four bytes and decodes little-endian. -/
def Memory.read_u32 (m : Memory) (g : Nat) : Except HypervisorError Nat :=
  (m.read g 4).map fromLeBytes

/-- `Memory::read_u64`: reads eight bytes and decodes little-endian. -/
def Memory.read_u64 (m : Memory) (g : Nat) : Except HypervisorError Nat :=
  (m.read g 8).map fromLeBytes

/-- `Memory::write_u8`: writes the one-byte encoding through
`Memory::write`. -/
def Memory.write_u8 (m : Memory) (g : Nat) (v : Nat) : BackendResult × Memory :=
  m.write g (toLeBytes 1 v)

/-- `Memory::write_u16`: writes the two-byte little-endian encoding. -/
def Memory.write_u16 (m : Memory) (g : Nat) (v : Nat) : BackendResult × Memory :=
  m.write g (toLeBytes 2 v)

/-- `Memory::write_u32`: writes the four-byte little-endian encoding. -/
def Memory.write_u32 (m : Memory) (g : Nat) (v : Nat) : BackendResult × Memory :=
  m.write g (toLeBytes 4 v)

/-- `Memory::write_u64`: writes the eight-byte little-endian encoding. -/
def Memory.write_u64 (m : Memory) (g : Nat) (v : Nat) : BackendResult × Memory :=
  m.write g (toLeBytes 8 v)

/-- `MemAlloc::new` under the `macos-12-1` feature: rounds the requested
size up to the next `PAGE_SIZE` multiple with `checked_add`, failing
with `BadArgument` on overflow; on success the backend `hv_vm_allocate`
is issued and the rounded size is recorded.  Returns the recorded
size. -/
def MemAlloc.new_hv (size : Nat) : Except HypervisorError Nat :=
  match checkedAddU64 size ((PAGE_SIZE - size % PAGE_SIZE) % PAGE_SIZE) with
  | none => .error .BadArgument
  | some rounded => .ok rounded

/-- `MemAlloc::new` on the `std::alloc` path:
`Layout::from_size_align(size, PAGE_SIZE)?.pad_to_align()`.
`from_size_align` fails (surfaced as `LayoutError` through the `From`
impl in `src/src/error.rs`) exactly when the size rounded up to the
alignment exceeds `isize::MAX`; `pad_to_align` then records the rounded
size. -/
def MemAlloc.new_std (size : Nat) : Except HypervisorError Nat :=
  if size + (PAGE_SIZE - size % PAGE_SIZE) % PAGE_SIZE ≤ isizeMax then
    .ok (size + (PAGE_SIZE - size % PAGE_SIZE) % PAGE_SIZE)
  else .error .LayoutError

/-!
## Virtual-machine lifetime state machine

`VirtualMachineInstance` (`src/src/vm.rs`) wraps a shared `Arc<()>`
token.  `VirtualMachine::new` creates the backend VM and a first handle;
`Clone` adds handles; `vcpu_with_config` and `memory_create` clone the
same `Arc` into the `Vcpu` / `Memory` they return; the `Drop` impl of
`VirtualMachineInstance` takes its `Arc` and, when `Arc::into_inner`
succeeds (it held the last strong reference), issues `hv_vm_destroy`.
Dropping a `Vcpu` or a `Memory` releases its strong reference without
any destroy call.  The process state below counts the strong references
by the kind of holder, plus the number of live backend VM contexts.
-/

/-- Operations on the process-wide VM reference graph. -/
inductive VmOp where
  /-- `VirtualMachine::new()` -/
  | newVm
  /-- `VirtualMachineInstance::clone()` on a live handle -/
  | cloneInst
  /-- dropping a `VirtualMachineInstance` handle -/
  | dropInst
  /-- `instance.vcpu_create()` (or `vcpu_with_config`) on a live handle -/
  | newVcpu
  /-- dropping a `Vcpu` -/
  | dropVcpu
  /-- `instance.memory_create(..)` on a live handle -/
  | newMem
  /-- dropping a `Memory` -/
  | dropMem
deriving DecidableEq

/-- Process state: live backend VM contexts and strong references to the
shared `Arc<()>` token, split by the kind of holder. -/
structure ProcState where
  /-- Live backend VM contexts in the process (backend side). -/
  vmCount : Nat
  /-- Strong references held by `VirtualMachineInstance` handles. -/
  inst : Nat
  /-- Strong references held by `Vcpu` objects (`_guard_vm`). -/
  vcpus : Nat
  /-- Strong references held by `Memory` objects (`_guard_vm`). -/
  mems : Nat
deriving DecidableEq

/-- Total strong count of the shared `Arc<()>` token. -/
def ProcState.total (s : ProcState) : Nat := s.inst + s.vcpus + s.mems

/-- State of a fresh process: no backend VM, no references. -/
def ProcState.init : ProcState := ⟨0, 0, 0, 0⟩

/-- Modelled from the spec: the native backend call `hv_vm_create`
(external to the repository) succeeds if and only if no backend VM is
currently live in the process, and otherwise reports the `Busy` status
code.  This is the result `VirtualMachine::new` returns to its
caller. -/
def createResult (s : ProcState) : BackendResult :=
  if 0 < s.vmCount then .error .Busy else .ok ()

/-- One step of the reference graph.  Returns the next state and whether
this step issued the backend `hv_vm_destroy` call.  Operations that
require an object that does not exist (cloning or dropping with no live
holder of that kind) cannot arise in Rust and are no-ops here. -/
def vmStep (s : ProcState) : VmOp → ProcState × Bool
  | .newVm =>
    match createResult s with
    | .error _ => (s, false)
    | .ok _ => ({ s with vmCount := 1, inst := s.inst + 1 }, false)
  | .cloneInst =>
    if 0 < s.inst then ({ s with inst := s.inst + 1 }, false) else (s, false)
  | .dropInst =>
    if s.inst = 0 then (s, false)
    else if s.total = 1 then
      ({ s with inst := 0, vmCount := s.vmCount - 1 }, true)
    else ({ s with inst := s.inst - 1 }, false)
  | .newVcpu =>
    if 0 < s.inst then ({ s with vcpus := s.vcpus + 1 }, false) else (s, false)
  | .dropVcpu =>
    if 0 < s.vcpus then ({ s with vcpus := s.vcpus - 1 }, false) else (s, false)
  | .newMem =>
    if 0 < s.inst then ({ s with mems := s.mems + 1 }, false) else (s, false)
  | .dropMem =>
    if 0 < s.mems then ({ s with mems := s.mems - 1 }, false) else (s, false)

/-- Run a sequence of operations from a state. -/
def vmRun (s : ProcState) : List VmOp → ProcState
  | [] => s
  | op :: ops => vmRun (vmStep s op).1 ops

/-- Lifetime invariant of the reference graph: at most one live backend
VM, and a backend VM is live whenever any strong reference exists. -/
def vmInvariant (s : ProcState) : Prop :=
  s.vmCount ≤ 1 ∧ (0 < s.total → s.vmCount = 1)

/-- Invariant of traces restricted to the C1 alphabet (instance
create/clone/drop only): no derived resources exist and the backend VM
is live exactly while the instance reference count is positive. -/
def instOnlyInvariant (s : ProcState) : Prop :=
  s.vcpus = 0 ∧ s.mems = 0 ∧ s.vmCount = (if 0 < s.inst then 1 else 0)

/-- The claim of C2 as stated: the backend destroy call is issued
exactly when the last holder — whether an instance handle, a `Vcpu` or a
`Memory` — is dropped. -/
def lastHolderDropClaim : Prop :=
  ∀ (ops : List VmOp) (op : VmOp),
    (vmStep (vmRun ProcState.init ops) op).2 = true ↔
      ((vmRun ProcState.init ops).total = 1 ∧
        ((op = .dropInst ∧ 0 < (vmRun ProcState.init ops).inst) ∨
         (op = .dropVcpu ∧ 0 < (vmRun ProcState.init ops).vcpus) ∨
         (op = .dropMem ∧ 0 < (vmRun ProcState.init ops).mems)))

/-- The body of `impl Drop for VirtualMachineInstance` in
`src/src/vm.rs`: when `Arc::into_inner` succeeds (`isLast`), the backend
`hv_vm_destroy` is issued and its result is discarded by `let _ = ...`
(the source comment reads "WARN: fails silently if the VM instance could
not be cleaned up").  Returns whether destroy was called and the error
the drop surfaces to the rest of the program. -/
def vmInstanceDropReport (isLast : Bool) (destroy : BackendResult) :
    Bool × Option HypervisorError :=
  if isLast then
    match destroy with
    | .ok _ => (true, none)
    | .error _ => (true, none)
  else (false, none)

/-- The claim of C9 as stated: a failing destroy on the drop of the last
directly-held instance is reported as an error. -/
def destroyFailureReportedClaim : Prop :=
  ∀ e : HypervisorError,
    (vmInstanceDropReport true (.error e)).2 = some e

/-- The claim of C5 as stated: a request whose page rounding would
overflow fails with `BadArgument`, on either allocation path. -/
def allocOverflowBadArgumentClaim : Prop :=
  ∀ size : Nat,
    u64Bound ≤ size + (PAGE_SIZE - size % PAGE_SIZE) % PAGE_SIZE →
      MemAlloc.new_hv size = .error .BadArgument ∧
      MemAlloc.new_std size = .error .BadArgument

/-!
## vCPU liveness token

A `Vcpu` (`src/src/vcpu.rs`) owns `_guard_self : Arc<()>`; a
`VcpuHandle` carries `Weak<()>` obtained by `Arc::downgrade` in
`Vcpu::get_handle`, so `VcpuHandle::is_valid` is
`Weak::strong_count(&self._guard) > 0`.  The owner is the only lasting
strong holder; `VcpuHandle::take_ref` upgrades are scoped to a single
`vcpus_exit` call, which releases them before returning, so each public
operation is one atomic step here. -/

/-- Life-cycle operations touching one vCPU liveness token. -/
inductive VcpuLifeOp where
  /-- `VirtualMachineInstance::vcpu_create`: a fresh owner and token. -/
  | create
  /-- dropping the owning `Vcpu` (its `_guard_self` strong ref goes). -/
  | dropOwner
  /-- a `vcpus_exit` call: upgrades and releases within the call. -/
  | exitCall
deriving DecidableEq

/-- The liveness token of one vCPU: the strong count of `_guard_self`
and whether the owning `Vcpu` is still alive. -/
structure VcpuToken where
  strong : Nat
  ownerAlive : Bool
deriving DecidableEq

/-- Before the vCPU is created: no token, no owner. -/
def VcpuToken.init : VcpuToken := ⟨0, false⟩

/-- `VcpuHandle::is_valid`: `Weak::strong_count(&self._guard) > 0`. -/
def VcpuToken.is_valid (t : VcpuToken) : Bool := decide (0 < t.strong)

/-- One step of the token life cycle. -/
def vcpuLifeStep (t : VcpuToken) : VcpuLifeOp → VcpuToken
  | .create => if t.ownerAlive then t else ⟨1, true⟩
  | .dropOwner => if t.ownerAlive then ⟨t.strong - 1, false⟩ else t
  | .exitCall => t

/-- Run a sequence of life-cycle operations. -/
def vcpuLifeRun (t : VcpuToken) : List VcpuLifeOp → VcpuToken
  | [] => t
  | op :: ops => vcpuLifeRun (vcpuLifeStep t op) ops

/-- A `VcpuHandle` as observed by `vcpus_exit`: the vCPU identifier and
whether its owner is still alive (whether the `Weak` upgrade can
succeed). -/
structure VcpuHandleM where
  id : Nat
  ownerAlive : Bool
deriving DecidableEq

/-- `VcpuHandle::take_ref`: `Weak::upgrade`, `some` strong guard exactly
while the owner is alive. -/
def VcpuHandleM.take_ref (h : VcpuHandleM) : Option Unit :=
  if h.ownerAlive then some () else none

/-- The loop of `VirtualMachineInstance::vcpus_exit`: for each handle
whose upgrade succeeds, push its identifier (and hold the guard);
handles whose owner is gone are skipped. -/
def vcpusExitIds : List VcpuHandleM → List Nat
  | [] => []
  | h :: t =>
    match h.take_ref with
    | some _ => h.id :: vcpusExitIds t
    | none => vcpusExitIds t

/-- `VirtualMachineInstance::vcpus_exit`: one backend `hv_vcpus_exit`
call with the identifiers of the surviving handles; its status is the
only error source. -/
def vcpus_exit (handles : List VcpuHandleM)
    (bk : List Nat → BackendResult) : BackendResult :=
  bk (vcpusExitIds handles)

theorem vmInvariant_init : vmInvariant ProcState.init := by
  constructor <;> simp [ProcState.init, ProcState.total]

theorem vmInvariant_step (s : ProcState) (op : VmOp) (h : vmInvariant s) :
    vmInvariant (vmStep s op).1 := by
  obtain ⟨h1, h2⟩ := h
  cases op <;>
    simp only [vmStep, createResult, ProcState.total, vmInvariant] at * <;>
    split_ifs <;> simp_all <;> omega

theorem vmInvariant_run (s : ProcState) (ops : List VmOp)
    (h : vmInvariant s) : vmInvariant (vmRun s ops) := by
  induction ops generalizing s with
  | nil => exact h
  | cons op ops ih => exact ih _ (vmInvariant_step s op h)

theorem instOnlyInvariant_step (s : ProcState) (op : VmOp)
    (hop : op = .newVm ∨ op = .cloneInst ∨ op = .dropInst)
    (h : instOnlyInvariant s) : instOnlyInvariant (vmStep s op).1 := by
  obtain ⟨h1, h2, h3⟩ := h
  rcases hop with rfl | rfl | rfl <;>
    simp only [vmStep, createResult, ProcState.total, instOnlyInvariant] at * <;>
    split_ifs <;> simp_all <;> omega

theorem instOnlyInvariant_run (s : ProcState) (ops : List VmOp)
    (hops : ∀ op ∈ ops, op = .newVm ∨ op = .cloneInst ∨ op = .dropInst)
    (h : instOnlyInvariant s) : instOnlyInvariant (vmRun s ops) := by
  induction ops generalizing s with
  | nil => exact h
  | cons op ops ih =>
    exact ih _ (fun o ho => hops o (List.mem_cons_of_mem op ho))
      (instOnlyInvariant_step s op (hops op (List.mem_cons_self op ops)) h)

/-- The destroy flag of a step, characterised: `hv_vm_destroy` is issued
exactly by the drop of a `VirtualMachineInstance` handle that holds the
last strong reference (`Arc::into_inner` succeeds). -/
theorem vmStep_destroy_iff (s : ProcState) (op : VmOp) :
    (vmStep s op).2 = true ↔
      (op = .dropInst ∧ 0 < s.inst ∧ s.total = 1) := by
  cases op <;>
    simp only [vmStep, createResult] <;>
    split_ifs <;> simp_all <;> omega

/-- C1: over any sequence of `VirtualMachine::new`, clone and drop
operations on `VirtualMachineInstance` handles, at most one live backend
VM exists at any point; a second `create()` while one is live fails with
`Busy` (and changes nothing); and after the last reference is dropped,
`create()` succeeds again. -/
theorem vm_singleton_uniqueness (ops : List VmOp)
    (hops : ∀ op ∈ ops,
      op = VmOp.newVm ∨ op = VmOp.cloneInst ∨ op = VmOp.dropInst) :
    (vmRun ProcState.init ops).vmCount ≤ 1
    ∧ (0 < (vmRun ProcState.init ops).inst →
        createResult (vmRun ProcState.init ops) = .error .Busy ∧
        (vmStep (vmRun ProcState.init ops) .newVm).1 = vmRun ProcState.init ops)
    ∧ ((vmRun ProcState.init ops).inst = 1 →
        createResult (vmStep (vmRun ProcState.init ops) .dropInst).1 = .ok ()) := by
  have hinv := vmInvariant_run ProcState.init ops vmInvariant_init
  have hio := instOnlyInvariant_run ProcState.init ops hops
    (by simp [instOnlyInvariant, ProcState.init])
  obtain ⟨hv, hm, hc⟩ := hio
  refine ⟨hinv.1, fun hpos => ?_, fun hone => ?_⟩
  · have hcount : (vmRun ProcState.init ops).vmCount = 1 := by
      rw [hc]; simp [hpos]
    constructor
    · simp [createResult, hcount]
    · simp [vmStep, createResult, hcount]
  · have htot : (vmRun ProcState.init ops).total = 1 := by
      simp [ProcState.total, hv, hm, hone]
    have hcount : (vmRun ProcState.init ops).vmCount = 1 := by
      rw [hc]; simp [hone]
    simp [vmStep, htot, hone, hcount, createResult]

theorem vm_singleton_uniqueness_witness :
    createResult (vmRun ProcState.init [VmOp.newVm]) = .error .Busy
    ∧ createResult
        (vmStep (vmRun ProcState.init [VmOp.newVm]) .dropInst).1 = .ok () := by
  have h := vm_singleton_uniqueness [VmOp.newVm] (by decide)
  exact ⟨(h.2.1 (by decide)).1, h.2.2 (by decide)⟩

/-- C2 counterexample: the claim that `hv_vm_destroy` is issued exactly
when the last holder of any kind is dropped fails on the concrete trace
create VM → create Memory → drop instance → drop Memory: the final drop
removes the last strong reference but issues no destroy call. -/
theorem last_holder_drop_refuted : ¬ lastHolderDropClaim := by
  intro h
  have h2 := (h [VmOp.newVm, VmOp.newMem, VmOp.dropInst] VmOp.dropMem).mpr
    ⟨by decide, Or.inr (Or.inr ⟨rfl, by decide⟩)⟩
  exact absurd h2 (by decide)

/-- C2 (amended): the backend VM stays live for the entire lifetime of
every `Vcpu` and `Memory` because each holds a strong reference to the
same `Arc` token, and the backend destroy call is issued exactly when a
`VirtualMachineInstance` handle drop releases the last strong reference;
a `Vcpu` or `Memory` dropped as last holder does not issue the destroy
call. -/
theorem vm_lifetime_ordering (ops : List VmOp) :
    (0 < (vmRun ProcState.init ops).vcpus + (vmRun ProcState.init ops).mems →
      (vmRun ProcState.init ops).vmCount = 1)
    ∧ ∀ op : VmOp,
        (vmStep (vmRun ProcState.init ops) op).2 = true ↔
          (op = .dropInst ∧ 0 < (vmRun ProcState.init ops).inst ∧
            (vmRun ProcState.init ops).total = 1) := by
  have hinv := vmInvariant_run ProcState.init ops vmInvariant_init
  refine ⟨fun hpos => hinv.2 ?_, fun op => vmStep_destroy_iff _ op⟩
  simp only [ProcState.total]
  omega

theorem vm_lifetime_ordering_witness :
    (vmRun ProcState.init [VmOp.newVm, VmOp.newVcpu]).vmCount = 1
    ∧ (vmStep (vmRun ProcState.init [VmOp.newVm, VmOp.newVcpu])
        VmOp.dropVcpu).2 = false := by
  have h := vm_lifetime_ordering [VmOp.newVm, VmOp.newVcpu]
  refine ⟨h.1 (by decide), ?_⟩
  have h2 := (h.2 VmOp.dropVcpu).not.mpr (by decide)
  simpa using h2

/-- C9 counterexample: when the last instance handle drops and the
backend destroy fails with the generic error code, the drop reports
nothing. -/
theorem destroy_failure_reported_refuted : ¬ destroyFailureReportedClaim := by
  intro h
  have h2 := h HypervisorError.Error
  simp [vmInstanceDropReport] at h2

/-- C9 (amended): the `Drop` impl of `VirtualMachineInstance` issues the
backend destroy call exactly when it holds the last strong reference and
always discards the call result; a destroy failure is silently ignored
on every teardown path. -/
theorem destroy_failure_silently_ignored (isLast : Bool)
    (destroy : BackendResult) :
    (vmInstanceDropReport isLast destroy).2 = none
    ∧ (vmInstanceDropReport isLast destroy).1 = isLast := by
  cases isLast <;> cases destroy <;> simp [vmInstanceDropReport]

/-- Characterisation of `Memory::read` on a mapped object: the access
succeeds exactly when the requested range lies inside the mapped range
and no address arithmetic overflows, and fails with `BadArgument`
otherwise. -/
theorem read_eq (m : Memory) (A g len : Nat) (hA : m.guest_addr = some A) :
    m.read g len =
      if A ≤ g ∧ g + len ≤ A + m.size ∧ A + m.size < u64Bound then
        .ok ((m.data.drop (g - A)).take len)
      else .error .BadArgument := by
  simp only [Memory.read, hA, checkedAddU64]
  split_ifs <;> first | rfl | omega | simp_all | (simp_all; omega)

/-- Characterisation of `Memory::write` on a mapped object, with the
same validation as `read_eq` and the host-buffer splice on success. -/
theorem write_eq (m : Memory) (A g : Nat) (bytes : List Nat)
    (hA : m.guest_addr = some A) :
    m.write g bytes =
      if A ≤ g ∧ g + bytes.length ≤ A + m.size ∧ A + m.size < u64Bound then
        (.ok (), { m with data := listSplice m.data (g - A) bytes })
      else (.error .BadArgument, m) := by
  simp only [Memory.write, hA, checkedAddU64]
  split_ifs <;> first | rfl | omega | simp_all | (simp_all; omega)

theorem splice_extract (data : List Nat) (off : Nat) (bytes : List Nat)
    (h : off ≤ data.length) :
    ((listSplice data off bytes).drop off).take bytes.length = bytes := by
  have hto : (data.take off).length = off := by
    rw [List.length_take]; omega
  rw [listSplice, List.append_assoc, List.drop_left' hto,
    List.take_left' rfl]

theorem splice_length (data : List Nat) (off : Nat) (bytes : List Nat)
    (h : off + bytes.length ≤ data.length) :
    (listSplice data off bytes).length = data.length := by
  simp [listSplice]
  omega

/-- Reading back a just-written range of a mapped `Memory` returns the
written bytes. -/
theorem write_read_roundtrip (m : Memory) (A g : Nat) (bytes : List Nat)
    (hA : m.guest_addr = some A) (hlen : m.data.length = m.size)
    (h1 : A ≤ g) (h2 : g + bytes.length ≤ A + m.size)
    (h3 : A + m.size < u64Bound) :
    (m.write g bytes).1 = .ok () ∧
    (m.write g bytes).2.read g bytes.length = .ok bytes := by
  have hw := write_eq m A g bytes hA
  rw [if_pos ⟨h1, h2, h3⟩] at hw
  rw [hw]
  refine ⟨rfl, ?_⟩
  have hr := read_eq { m with data := listSplice m.data (g - A) bytes }
    A g bytes.length hA
  simp only at hr
  rw [if_pos ⟨h1, h2, h3⟩] at hr
  rw [hr]
  simp only [Except.ok.injEq]
  exact splice_extract m.data (g - A) bytes (by omega)

theorem toLeBytes_length (n v : Nat) : (toLeBytes n v).length = n := by
  induction n generalizing v with
  | zero => rfl
  | succ n ih => simp [toLeBytes, ih]

/-- Decoding the little-endian encoding recovers the value modulo the
width. -/
theorem fromLeBytes_toLeBytes (n v : Nat) :
    fromLeBytes (toLeBytes n v) = v % 256 ^ n := by
  induction n generalizing v with
  | zero => simp [toLeBytes, fromLeBytes, Nat.mod_one]
  | succ n ih =>
    rw [toLeBytes, fromLeBytes, ih, pow_succ', Nat.mod_mul]

/-- Write-then-read round trip of an `n`-byte little-endian value. -/
theorem write_read_le (m : Memory) (A g v n : Nat)
    (hA : m.guest_addr = some A) (hlen : m.data.length = m.size)
    (h1 : A ≤ g) (h2 : g + n ≤ A + m.size) (h3 : A + m.size < u64Bound)
    (hv : v < 256 ^ n) :
    (m.write g (toLeBytes n v)).1 = .ok () ∧
    ((m.write g (toLeBytes n v)).2.read g n).map fromLeBytes = .ok v := by
  have hlenb : (toLeBytes n v).length = n := toLeBytes_length n v
  have h := write_read_roundtrip m A g (toLeBytes n v) hA hlen h1
    (by rw [hlenb]; exact h2) h3
  rw [hlenb] at h
  refine ⟨h.1, ?_⟩
  rw [h.2]
  simp [Except.map, fromLeBytes_toLeBytes, Nat.mod_eq_of_lt hv]

/-- C3: for a `Memory` mapped with size S at guest address A and a
buffer of length L, `read(guest_addr, buffer)` and
`write(guest_addr, buffer)` succeed exactly when
`[guest_addr, guest_addr + L)` lies fully inside `[A, A + S)` with no
u64 overflow in the address arithmetic, and fail with `BadArgument`
when the start is below A, the end exceeds A + S, or `guest_addr + L`
or `A + S` overflows u64. -/
theorem mem_rw_bounds (m : Memory) (A g len : Nat) (bytes : List Nat)
    (hA : m.guest_addr = some A) :
    ((A ≤ g ∧ g + len ≤ A + m.size ∧ A + m.size < u64Bound) →
      m.read g len = .ok ((m.data.drop (g - A)).take len))
    ∧ (¬(A ≤ g ∧ g + len ≤ A + m.size ∧ A + m.size < u64Bound) →
      m.read g len = .error .BadArgument)
    ∧ ((A ≤ g ∧ g + bytes.length ≤ A + m.size ∧ A + m.size < u64Bound) →
      (m.write g bytes).1 = .ok ())
    ∧ (¬(A ≤ g ∧ g + bytes.length ≤ A + m.size ∧ A + m.size < u64Bound) →
      (m.write g bytes).1 = .error .BadArgument) := by
  refine ⟨fun h => ?_, fun h => ?_, fun h => ?_, fun h => ?_⟩
  · rw [read_eq m A g len hA, if_pos h]
  · rw [read_eq m A g len hA, if_neg h]
  · rw [write_eq m A g bytes hA, if_pos h]
  · rw [write_eq m A g bytes hA, if_neg h]

theorem mem_rw_bounds_witness :
    (Memory.mk 16 (List.replicate 16 0) (some 8)).read 8 4 = .ok [0, 0, 0, 0]
    ∧ (Memory.mk 16 (List.replicate 16 0) (some 8)).read 0 4 =
        .error .BadArgument := by
  have h1 := mem_rw_bounds (Memory.mk 16 (List.replicate 16 0) (some 8))
    8 8 4 [] rfl
  have h2 := mem_rw_bounds (Memory.mk 16 (List.replicate 16 0) (some 8))
    8 0 4 [] rfl
  refine ⟨?_, h2.2.1 (by decide)⟩
  have h3 := h1.1 (by decide)
  simpa using h3

/-- C4: mapping an already-mapped `Memory` fails with `Busy` and leaves
the object unchanged; `unmap`, `protect`, `read` and `write` on an
unmapped object fail with the generic `Error` kind; and with a
succeeding backend, map → unmap → map succeeds and round-trips written
data. -/
theorem map_unmap_state_guard (m : Memory) (A g1 g2 o len : Nat)
    (bytes : List Nat) (perms : MemPerms) (bk : BackendResult) :
    (m.guest_addr = some A → m.map bk g1 perms = (.error .Busy, m))
    ∧ (m.guest_addr = none →
        (m.unmap bk).1 = .error .Error
        ∧ (m.protect bk perms).1 = .error .Error
        ∧ m.read g1 len = .error .Error
        ∧ (m.write g1 bytes).1 = .error .Error)
    ∧ (m.guest_addr = none → m.data.length = m.size →
        o + bytes.length ≤ m.size → g2 + m.size < u64Bound →
        (m.map (.ok ()) g1 perms).1 = .ok ()
        ∧ ((m.map (.ok ()) g1 perms).2.unmap (.ok ())).1 = .ok ()
        ∧ (((m.map (.ok ()) g1 perms).2.unmap (.ok ())).2.map
            (.ok ()) g2 perms).1 = .ok ()
        ∧ ((((m.map (.ok ()) g1 perms).2.unmap (.ok ())).2.map
            (.ok ()) g2 perms).2.write (g2 + o) bytes).1 = .ok ()
        ∧ ((((m.map (.ok ()) g1 perms).2.unmap (.ok ())).2.map
            (.ok ()) g2 perms).2.write (g2 + o) bytes).2.read
            (g2 + o) bytes.length = .ok bytes) := by
  refine ⟨fun hsome => ?_, fun hnone => ?_, fun hnone hlen hb hbound => ?_⟩
  · simp [Memory.map, hsome]
  · exact ⟨by simp [Memory.unmap, hnone], by simp [Memory.protect, hnone],
      by simp [Memory.read, hnone], by simp [Memory.write, hnone]⟩
  · have hrt := write_read_roundtrip (Memory.mk m.size m.data (some g2))
      g2 (g2 + o) bytes rfl hlen (Nat.le_add_right g2 o) (by simp; omega)
      (by simpa using hbound)
    simp only [Memory.map, Memory.unmap, hnone, Option.isSome_none,
      Bool.false_eq_true, if_false, Option.isSome_some, if_true]
    exact ⟨trivial, trivial, trivial, hrt.1, hrt.2⟩

theorem map_unmap_state_guard_witness :
    ((Memory.mk 16 (List.replicate 16 0) (some 8)).map (.ok ()) 8
      MemPerms.ReadWrite).1 = .error .Busy
    ∧ ((Memory.mk 16 (List.replicate 16 0) none).unmap (.ok ())).1 =
        .error .Error
    ∧ ((((Memory.mk 16 (List.replicate 16 0) none).map (.ok ()) 0
          MemPerms.ReadWrite).2.unmap (.ok ())).2.map (.ok ()) 32
          MemPerms.ReadWrite).1 = .ok () := by
  have h1 := map_unmap_state_guard (Memory.mk 16 (List.replicate 16 0) (some 8))
    8 8 32 0 4 [1, 2] MemPerms.ReadWrite (.ok ())
  have h2 := map_unmap_state_guard (Memory.mk 16 (List.replicate 16 0) none)
    8 0 32 0 4 [1, 2] MemPerms.ReadWrite (.ok ())
  refine ⟨?_, (h2.2.1 rfl).1, ?_⟩
  · rw [h1.1 rfl]
  · exact (h2.2.2 rfl (by decide) (by decide) (by decide)).2.2.1

/-- C10: if the backend map call fails inside `Memory::map`, the object
still records unmapped (the state is unchanged); if the backend unmap
call fails inside `Memory::unmap`, the recorded guest address was taken
out before the call, so the error is returned while the object reports
unmapped afterwards. -/
theorem map_unmap_atomicity (m : Memory) (A g : Nat) (e : HypervisorError)
    (perms : MemPerms) :
    (m.guest_addr = none → m.map (.error e) g perms = (.error e, m))
    ∧ (m.guest_addr = some A →
        (m.unmap (.error e)).1 = .error e ∧
        (m.unmap (.error e)).2.guest_addr = none) := by
  refine ⟨fun hnone => ?_, fun hsome => ?_⟩
  · simp [Memory.map, hnone]
  · simp [Memory.unmap, hsome]

theorem map_unmap_atomicity_witness :
    (Memory.mk 16 (List.replicate 16 0) none).map (.error .Fault) 8
        MemPerms.Read =
      (.error .Fault, Memory.mk 16 (List.replicate 16 0) none)
    ∧ ((Memory.mk 16 (List.replicate 16 0) (some 8)).unmap
        (.error .Fault)).2.guest_addr = none := by
  have h1 := map_unmap_atomicity (Memory.mk 16 (List.replicate 16 0) none)
    8 8 HypervisorError.Fault MemPerms.Read
  have h2 := map_unmap_atomicity (Memory.mk 16 (List.replicate 16 0) (some 8))
    8 8 HypervisorError.Fault MemPerms.Read
  exact ⟨h1.1 rfl, (h2.2 rfl).2⟩

/-- C6: on a mapped `Memory`, writing a value with
`write_u8`/`write_u16`/`write_u32`/`write_u64` at an in-bounds guest
address and reading it back with the matching
`read_u8`/`read_u16`/`read_u32`/`read_u64` returns `Ok` of the same
value: the fixed-width helpers are little-endian encodings over the
byte-slice primitives. -/
theorem fixed_width_le_roundtrip (m : Memory) (A g v : Nat)
    (hA : m.guest_addr = some A) (hlen : m.data.length = m.size)
    (hle : A ≤ g) (hbound : A + m.size < u64Bound) :
    (v < 2 ^ 8 → g + 1 ≤ A + m.size →
      (m.write_u8 g v).1 = .ok () ∧ (m.write_u8 g v).2.read_u8 g = .ok v)
    ∧ (v < 2 ^ 16 → g + 2 ≤ A + m.size →
      (m.write_u16 g v).1 = .ok () ∧ (m.write_u16 g v).2.read_u16 g = .ok v)
    ∧ (v < 2 ^ 32 → g + 4 ≤ A + m.size →
      (m.write_u32 g v).1 = .ok () ∧ (m.write_u32 g v).2.read_u32 g = .ok v)
    ∧ (v < 2 ^ 64 → g + 8 ≤ A + m.size →
      (m.write_u64 g v).1 = .ok () ∧ (m.write_u64 g v).2.read_u64 g = .ok v) := by
  refine ⟨fun hv h2 => ?_, fun hv h2 => ?_, fun hv h2 => ?_, fun hv h2 => ?_⟩
  · exact write_read_le m A g v 1 hA hlen hle h2 hbound (by norm_num at hv ⊢; exact hv)
  · exact write_read_le m A g v 2 hA hlen hle h2 hbound (by norm_num at hv ⊢; exact hv)
  · exact write_read_le m A g v 4 hA hlen hle h2 hbound (by norm_num at hv ⊢; exact hv)
  · exact write_read_le m A g v 8 hA hlen hle h2 hbound (by norm_num at hv ⊢; exact hv)

theorem fixed_width_le_roundtrip_witness :
    ((Memory.mk 16 (List.replicate 16 0) (some 0)).write_u32 4
      0xdeadbeef).1 = .ok ()
    ∧ ((Memory.mk 16 (List.replicate 16 0) (some 0)).write_u32 4
        0xdeadbeef).2.read_u32 4 = .ok 0xdeadbeef := by
  have h := fixed_width_le_roundtrip (Memory.mk 16 (List.replicate 16 0) (some 0))
    0 4 0xdeadbeef rfl (by decide) (by decide) (by decide)
  exact h.2.2.1 (by decide) (by decide)

/-- The rounding formula of `MemAlloc::new` equals the requested size
rounded up to the next `PAGE_SIZE` multiple. -/
theorem pageRound_eq (size : Nat) :
    size + (PAGE_SIZE - size % PAGE_SIZE) % PAGE_SIZE =
      PAGE_SIZE * ((size + PAGE_SIZE - 1) / PAGE_SIZE) := by
  simp only [PAGE_SIZE]
  omega

/-- C5 counterexample: on the `std::alloc` path, the request size from
the crate's own test (`0xffff_ffff_ffff_fabc`), whose page rounding
overflows u64, fails with `LayoutError`, not `BadArgument`. -/
theorem alloc_overflow_badargument_refuted :
    ¬ allocOverflowBadArgumentClaim := by
  intro h
  have h1 := (h 0xfffffffffffffabc (by decide)).2
  rw [show MemAlloc.new_std 0xfffffffffffffabc = .error .LayoutError
    from rfl] at h1
  simp at h1

/-- C5 (amended): a successful allocation records, on either path, the
requested size rounded up to the next `PAGE_SIZE` multiple (always a
page multiple); rounding is overflow-checked, and an overflowing
request fails — with `BadArgument` on the `hv_vm_allocate` path and
with `LayoutError` on the `std::alloc` path. -/
theorem alloc_rounding (size : Nat) :
    (∀ r, MemAlloc.new_hv size = .ok r →
      r = PAGE_SIZE * ((size + PAGE_SIZE - 1) / PAGE_SIZE) ∧
      r % PAGE_SIZE = 0)
    ∧ (∀ r, MemAlloc.new_std size = .ok r →
      r = PAGE_SIZE * ((size + PAGE_SIZE - 1) / PAGE_SIZE) ∧
      r % PAGE_SIZE = 0)
    ∧ (u64Bound ≤ size + (PAGE_SIZE - size % PAGE_SIZE) % PAGE_SIZE →
      MemAlloc.new_hv size = .error .BadArgument)
    ∧ (isizeMax < size + (PAGE_SIZE - size % PAGE_SIZE) % PAGE_SIZE →
      MemAlloc.new_std size = .error .LayoutError) := by
  refine ⟨fun r hr => ?_, fun r hr => ?_, fun hov => ?_, fun hov => ?_⟩
  · by_cases hc : size + (PAGE_SIZE - size % PAGE_SIZE) % PAGE_SIZE < u64Bound
    · simp only [MemAlloc.new_hv, checkedAddU64, hc, if_true,
        Except.ok.injEq] at hr
      rw [← hr, pageRound_eq]
      exact ⟨rfl, Nat.mul_mod_right _ _⟩
    · simp [MemAlloc.new_hv, checkedAddU64, hc] at hr
  · by_cases hc : size + (PAGE_SIZE - size % PAGE_SIZE) % PAGE_SIZE ≤ isizeMax
    · simp only [MemAlloc.new_std, hc, if_true, Except.ok.injEq] at hr
      rw [← hr, pageRound_eq]
      exact ⟨rfl, Nat.mul_mod_right _ _⟩
    · simp [MemAlloc.new_std, hc] at hr
  · have hc : ¬ (size + (PAGE_SIZE - size % PAGE_SIZE) % PAGE_SIZE < u64Bound) := by
      omega
    simp [MemAlloc.new_hv, checkedAddU64, hc]
  · have hc : ¬ (size + (PAGE_SIZE - size % PAGE_SIZE) % PAGE_SIZE ≤ isizeMax) := by
      omega
    simp [MemAlloc.new_std, hc]

theorem alloc_rounding_witness :
    MemAlloc.new_hv 0xfffffffffffffabc = .error .BadArgument
    ∧ ((0x4000 : Nat) = PAGE_SIZE * ((5 + PAGE_SIZE - 1) / PAGE_SIZE)
      ∧ (0x4000 : Nat) % PAGE_SIZE = 0) := by
  exact ⟨(alloc_rounding 0xfffffffffffffabc).2.2.1 (by decide),
    (alloc_rounding 5).1 0x4000 rfl⟩

theorem vcpuLifeStep_strong (t : VcpuToken) (op : VcpuLifeOp)
    (h : t.strong = if t.ownerAlive then 1 else 0) :
    (vcpuLifeStep t op).strong =
      if (vcpuLifeStep t op).ownerAlive then 1 else 0 := by
  cases op <;> simp [vcpuLifeStep] <;> split_ifs <;> simp_all

theorem vcpuLifeRun_strong (t : VcpuToken) (ops : List VcpuLifeOp)
    (h : t.strong = if t.ownerAlive then 1 else 0) :
    (vcpuLifeRun t ops).strong =
      if (vcpuLifeRun t ops).ownerAlive then 1 else 0 := by
  induction ops generalizing t with
  | nil => exact h
  | cons op ops ih => exact ih _ (vcpuLifeStep_strong t op h)

/-- C7: over any sequence of vCPU life-cycle operations,
`VcpuHandle::is_valid` returns `true` exactly while the owning `Vcpu`
has not been dropped: the `Weak` strong count is positive iff the owner
is alive. -/
theorem vcpu_handle_validity (ops : List VcpuLifeOp) :
    (vcpuLifeRun VcpuToken.init ops).is_valid =
      (vcpuLifeRun VcpuToken.init ops).ownerAlive := by
  have h := vcpuLifeRun_strong VcpuToken.init ops rfl
  cases halive : (vcpuLifeRun VcpuToken.init ops).ownerAlive <;>
    rw [halive] at h <;> simp [VcpuToken.is_valid, h]

theorem vcpusExitIds_filter (hs : List VcpuHandleM) :
    vcpusExitIds hs =
      (hs.filter (fun h => h.ownerAlive)).map (fun h => h.id) := by
  induction hs with
  | nil => rfl
  | cons h t ih =>
    by_cases hh : h.ownerAlive <;>
      simp [vcpusExitIds, VcpuHandleM.take_ref, hh, ih]

/-- C8: `vcpus_exit` upgrades each handle, silently omits every handle
whose owning `Vcpu` is gone from the identifier list, passes the
surviving identifiers to a single backend call, and dead handles never
change its result (so they never cause an error by themselves). -/
theorem vcpus_exit_tolerates_dead (handles : List VcpuHandleM)
    (bk : List Nat → BackendResult) :
    vcpusExitIds handles =
      (handles.filter (fun h => h.ownerAlive)).map (fun h => h.id)
    ∧ vcpus_exit handles bk =
        bk ((handles.filter (fun h => h.ownerAlive)).map (fun h => h.id))
    ∧ vcpus_exit handles bk =
        vcpus_exit (handles.filter (fun h => h.ownerAlive)) bk := by
  refine ⟨vcpusExitIds_filter handles, ?_, ?_⟩
  · rw [vcpus_exit, vcpusExitIds_filter]
  · rw [vcpus_exit, vcpus_exit, vcpusExitIds_filter, vcpusExitIds_filter]
    congr 1
    rw [List.filter_filter]
    simp

end Applevisor
